import Mathlib

/-!
Shallow embedding of `src/flac_to_opus_converter.py` (class `FlacToOpusConverter`):
the album scanner (`find_albums_with_flac`), the interactive selection engine
(`get_user_selection`), and the per-album conversion orchestrator
(`handle_existing_opus_files`, `convert_album`), together with theorems that
settle the specification claims about them.

Strings are Lean `String`s, but the primitive text operations of the Python
code (`str.strip`, `str.lower`, `str.split`, `str.endswith`, `int(...)`,
lexicographic comparison) are embedded as structurally recursive functions on
`List Char` (`String.data`), so that every definition evaluates inside the
kernel.  As in the source's usage, only ASCII data is relevant: `Char.toLower`
and `Char.isWhitespace` agree with Python's `str.lower` / `str.strip` on
ASCII, and `Char.isDigit` with the digits accepted by `int` (Python's
underscore-separator extension of `int` is not modelled; no claim involves
it).
-/

namespace FlacOpus

/-! ## Primitive text operations -/

/-- Python `s.strip()`: remove leading and trailing whitespace. -/
def trimChars (s : List Char) : List Char :=
  ((s.dropWhile Char.isWhitespace).reverse.dropWhile Char.isWhitespace).reverse

/-- Python `s.lower()` (ASCII). -/
def lowerChars (s : List Char) : List Char := s.map Char.toLower

/-- Python `s.split(sep)` for a one-character separator: always returns at
least one piece, and empty pieces are kept (`"a,,b" ↦ ["a","","b"]`,
`"" ↦ [""]`). -/
def splitOnChar (sep : Char) : List Char → List (List Char)
  | [] => [[]]
  | c :: rest =>
    match splitOnChar sep rest with
    | [] => [[]]
    | h :: t => if c = sep then [] :: h :: t else (c :: h) :: t

/-- Python `s.endswith(suffix)`. -/
def endsWithChars (s suffix : List Char) : Bool :=
  decide (s.drop (s.length - suffix.length) = suffix)

/-- Python `s1 <= s2`: lexicographic comparison by code point. -/
def charsLe : List Char → List Char → Bool
  | [], _ => true
  | _ :: _, [] => false
  | a :: as, b :: bs =>
    if a.toNat = b.toNat then charsLe as bs else decide (a.toNat < b.toNat)

/-- Numeric value of a list of decimal digits. -/
def digitsVal (ds : List Char) : Int :=
  ds.foldl (fun n c => 10 * n + ((c.toNat : Int) - 48)) 0

/-- Python `int(s)`: strip whitespace, optional sign, then decimal digits;
any other shape raises `ValueError`, modelled as `none`. -/
def pyInt (s : List Char) : Option Int :=
  let t := trimChars s
  let sd : Int × List Char :=
    match t with
    | '-' :: rest => (-1, rest)
    | '+' :: rest => (1, rest)
    | _ => (1, t)
  if sd.2 ≠ [] ∧ sd.2.all Char.isDigit then some (sd.1 * digitsVal sd.2) else none

/-! ## File-name conventions -/

/-- `fle.lower().endswith('.flac')` — the case-insensitive source-file match
on line 34 of the source. -/
def isFlacName (f : String) : Bool :=
  endsWithChars (lowerChars f.data) ".flac".data

/-- Python `name.rsplit('.', 1)[0]`: everything before the last dot, or the
whole name when it has no dot. -/
def rsplitBase (s : List Char) : List Char :=
  if s.contains '.' then ((s.reverse.dropWhile (· ≠ '.')).drop 1).reverse else s

/-- The sibling target name of a source file:
`flac_file.rsplit('.', 1)[0] + '.opus'` (lines 222 and 282). -/
def opusName (f : String) : String := ⟨rsplitBase f.data ++ ".opus".data⟩

/-- The macOS sidecar metadata name of a file: `f"._{name}"` (line 247). -/
def sidecarName (f : String) : String := ⟨'.' :: '_' :: f.data⟩

/-- Whether a file name matches the glob pattern `._*` used on line 328. -/
def matchesSidecarGlob (m : String) : Bool := decide (m.data.take 2 = ['.', '_'])

/-! ## Album scanner (`find_albums_with_flac`, lines 22-48) -/

/-- An album record, as built by `find_albums_with_flac`:
`{'path', 'relative_path', 'flac_count', 'flac_files', 'total_files'}`
(the absolute `path` is determined by `relative_path` plus the scan root and
carries no extra information for the modelled logic). -/
structure Album where
  relative_path : String
  flac_files : List String
  flac_count : Nat
  total_files : Nat
deriving DecidableEq, Repr

mutual
/-- A directory tree: the immediate file names of a directory together with
its named subdirectories, in the order `os.walk` lists them. -/
inductive DirTree : Type where
  | node : List String → Forest → DirTree

/-- The subdirectories of a directory: a list of (name, subtree) pairs. -/
inductive Forest : Type where
  | nil : Forest
  | cons : String → DirTree → Forest → Forest
end

mutual
/-- The `(root, files)` pairs yielded by `os.walk`, top-down, the root path
expressed as the list of path segments relative to the scan root (`[]` is the
scan root itself).  `os.walk` also yields the subdirectory names, which the
source ignores. -/
def walkFrom (p : List String) : DirTree → List (List String × List String)
  | .node fs subs => (p, fs) :: walkForest p subs

/-- Walk each subdirectory of `p` in order. -/
def walkForest (p : List String) : Forest → List (List String × List String)
  | .nil => []
  | .cons n t rest => walkFrom (p ++ [n]) t ++ walkForest p rest
end

/-- `str(root_path.relative_to(self.music_root))`: path segments joined
with `/`. -/
def joinPath : List String → List Char
  | [] => []
  | [s] => s.data
  | s :: rest => s.data ++ '/' :: joinPath rest

/-- The album record built for one directory entry (lines 33-46), `none` when
the entry is the scan root itself (lines 29-31) or has no FLAC files. -/
def albumOfEntry (e : List String × List String) : Option Album :=
  if e.1 = [] then none
  else if e.2.filter (fun f => isFlacName f) = [] then none
  else some { relative_path := ⟨joinPath e.1⟩
              flac_files := e.2.filter (fun f => isFlacName f)
              flac_count := (e.2.filter (fun f => isFlacName f)).length
              total_files := e.2.length }

/-- Sort order of the scanner output: `key=lambda x: x['relative_path']`
(line 48). -/
def albumLe (a b : Album) : Prop :=
  charsLe a.relative_path.data b.relative_path.data

instance : DecidableRel albumLe := fun a b => by
  unfold albumLe; infer_instance

/-- `find_albums_with_flac` (lines 22-48): walk the tree, skip the root
itself, keep directories with at least one FLAC file, and return the album
records sorted by relative path.  Python's `sorted` is a stable sort, so its
output coincides with `List.insertionSort`, which is also stable. -/
def findAlbumsWithFlac (t : DirTree) : List Album :=
  List.insertionSort albumLe ((walkFrom [] t).filterMap albumOfEntry)

/-! ## Selection engine (`get_user_selection`, lines 119-177) -/

/-- One comma-separated token of the selection grammar (lines 141-149):
after `part.strip()`, a token containing `-` is split on `-` and must give
exactly two `int(...)`-parseable pieces `start`, `end`, contributing
`range(start, end + 1)` = `Finset.Icc start end` (empty when `start > end`);
any other token must itself be `int(...)`-parseable and contributes a
singleton.  A `ValueError` of `int` or of unpacking is modelled as `none`. -/
def parseToken (part : List Char) : Option (Finset Int) :=
  let p := trimChars part
  if p.contains '-' then
    match splitOnChar '-' p with
    | [a, b] =>
      match pyInt a, pyInt b with
      | some s, some e => some (Finset.Icc s e)
      | _, _ => none
    | _ => none
  else (pyInt p).map (fun i => {i})

/-- The union of the index sets of all comma-separated tokens; `none` as soon
as one token is malformed. -/
def parseSelList : List (List Char) → Option (Finset Int)
  | [] => some ∅
  | p :: rest =>
    match parseToken p, parseSelList rest with
    | some s, some t => some (s ∪ t)
    | _, _ => none

/-- `selected_indices` resolved from one (already stripped and lowercased)
input line (lines 138-149). -/
def parseSel (s : List Char) : Option (Finset Int) :=
  parseSelList (splitOnChar ',' s)

/-- `confirm.strip().lower() in ['n', 'no']` (lines 165-166, also lines
232-233): the only answers treated as negative; everything else (the empty
default included) proceeds. -/
def negAnswer (s : String) : Bool :=
  lowerChars (trimChars s.data) = "n".data ∨ lowerChars (trimChars s.data) = "no".data

/-- `[albums[i-1] for i in sorted(valid_indices)]` (line 158), for an index
set already validated to lie within `[1, len(albums)]`: enumerating positions
`0 ≤ k < len(albums)` in increasing order and keeping those with `k + 1` in
the set produces exactly the albums at the sorted indices. -/
def chosenOf {α : Type} (albums : List α) (idxs : Finset Int) : List α :=
  (List.range albums.length).filterMap
    (fun (k : Nat) => if ((k : Int) + 1) ∈ idxs then albums.get? k else none)

/-- The `while True` prompt loop of `get_user_selection` (lines 126-177),
driven by the queue of operator input lines (`input(...)` answers); `none`
models the queue running out (end of input).  Per iteration: the line is
stripped and lowercased; `'all'` returns the whole catalog at once (lines
132-133); an empty line re-prompts (lines 135-136); a `ValueError` while
parsing re-prompts (lines 172-174); an out-of-range index re-prompts (lines
151-156); otherwise the next line answers the confirmation prompt, a negative
answer re-prompts (lines 165-168) and anything else returns the selection
(lines 169-170). -/
def selectionLoop {α : Type} (albums : List α) : List String → Option (List α)
  | [] => none
  | line :: rest =>
    let s := lowerChars (trimChars line.data)
    if s = "all".data then some albums
    else if s = [] then selectionLoop albums rest
    else
      match parseSel s with
      | none => selectionLoop albums rest
      | some idxs =>
        let valid := idxs.filter (fun i => 1 ≤ i ∧ i ≤ (albums.length : Int))
        if valid.card ≠ idxs.card then selectionLoop albums rest
        else
          match rest with
          | [] => none
          | c :: rest2 =>
            if negAnswer c then selectionLoop albums rest2
            else some (chosenOf albums valid)

/-- `get_user_selection` (lines 119-177): an empty catalog returns `[]`
without prompting (lines 121-122); otherwise the prompt loop runs. -/
def getUserSelection {α : Type} (albums : List α) (inputs : List String) :
    Option (List α) :=
  if albums.isEmpty then some [] else selectionLoop albums inputs

/-! ## Conversion orchestrator (`handle_existing_opus_files` lines 213-259,
`convert_album` lines 261-342)

The filesystem relevant to one album is the set of file names present in the
album's directory (`fs`).  The external pieces the code interacts with are
oracles: `retOk f` is whether `convert_flac_to_opus` returns `True` for
source `f` (the `opusenc` subprocess exits with status 0, lines 193-211);
`writes f` is whether that invocation leaves the target file on disk;
`unlinkOk m` is whether `Path(m).unlink()` succeeds (a raised exception is
caught and logged at every call site); `preDeleteAnswer` is the operator's
answer to the `Delete these FLAC files? (Y/n)` prompt (line 230).  The
concurrent `as_completed` collection (lines 294-308) is modelled by the
linearisation that handles the dispatched files in submission order; the
collected outcome sets and counts do not depend on completion order. -/

/-- The album-directory world `convert_album` runs in. -/
structure World where
  fs : Finset String
  retOk : String → Bool
  writes : String → Bool
  unlinkOk : String → Bool
  preDeleteAnswer : String

/-- Result of `handle_existing_opus_files`: the directory contents afterwards,
the returned `deleted_files`, and the sidecar files removed on lines 244-253. -/
structure PrePass where
  fs : Finset String
  deleted : List String
  sidecarsDeleted : Finset String

/-- `handle_existing_opus_files` (lines 213-259): collect the FLAC files whose
sibling Opus target already exists; if there are any, ask the operator, and
unless the answer is negative delete each of them (a failing unlink is logged
and the file is excluded from `deleted_files`), then delete the sidecar
`._<name>` of each deleted file when it exists, ignoring failures. -/
def handleExistingOpusFiles (w : World) (flac_files : List String) : PrePass :=
  let flacWithOpus := flac_files.filter (fun f => opusName f ∈ w.fs)
  if flacWithOpus.isEmpty then ⟨w.fs, [], ∅⟩
  else if negAnswer w.preDeleteAnswer then ⟨w.fs, [], ∅⟩
  else
    let deleted := flacWithOpus.filter (fun f => decide (f ∈ w.fs) && w.unlinkOk f)
    let fs1 := w.fs \ deleted.toFinset
    let sdel := (deleted.filterMap (fun f =>
      if sidecarName f ∈ fs1 ∧ w.unlinkOk (sidecarName f)
      then some (sidecarName f) else none)).toFinset
    ⟨fs1 \ sdel, deleted, sdel⟩

/-- The `as_completed` collection loop (lines 294-308), linearised in
submission order: each dispatched file's conversion lands its target on disk
(when the encoder writes it), then `future.result()` and `opus_path.exists()`
classify the file.  The single Python loop accumulates the directory
contents, `successful_conversions` and `failed_conversions` simultaneously;
it is embedded as three functions performing the identical traversal, one per
accumulator.  `collectFs` is the directory contents after all conversions. -/
def collectFs (writes : String → Bool) (fs : Finset String) : List String → Finset String
  | [] => fs
  | f :: rest => collectFs writes (if writes f then insert (opusName f) fs else fs) rest

/-- `successful_conversions` (line 301): the dispatched files with
`success and opus_path.exists()` (line 299). -/
def convList (retOk writes : String → Bool) (fs : Finset String) : List String → List String
  | [] => []
  | f :: rest =>
    let fs1 := if writes f then insert (opusName f) fs else fs
    if retOk f && decide (opusName f ∈ fs1) then f :: convList retOk writes fs1 rest
    else convList retOk writes fs1 rest

/-- `failed_conversions` (lines 304, 308): the dispatched files that are not
converted (gateway failure, missing target, or a raised exception). -/
def failList (retOk writes : String → Bool) (fs : Finset String) : List String → List String
  | [] => []
  | f :: rest =>
    let fs1 := if writes f then insert (opusName f) fs else fs
    if retOk f && decide (opusName f ∈ fs1) then failList retOk writes fs1 rest
    else f :: failList retOk writes fs1 rest

/-- Everything observable about one `convert_album` run. -/
structure AlbumOutcome where
  preDeleted : List String
  preSidecarsDeleted : Finset String
  dispatched : List String
  converted : List String
  failed : List String
  skipped : Nat
  fsPreCleanup : Finset String
  cleanupDeleted : List String
  cleanupSidecarsDeleted : Finset String
  fsFinal : Finset String
  success : Bool

/-- `convert_album` (lines 261-342): run `handle_existing_opus_files`; submit
every FLAC file whose target does not already exist (lines 280-291); collect
the outcomes (lines 294-308); report `skipped = total - converted - failed`
(lines 311-312); then, when there is at least one success and no failure,
delete the converted sources (a failing unlink is logged and skipped) and then
every file of the directory matching the glob `._*` (lines 317-336, returning
`True`); with failures present keep everything (lines 337-339, returning
`False`); and with nothing converted and nothing failed do nothing (lines
340-342, returning `True`). -/
def convertAlbum (w : World) (album : Album) : AlbumOutcome :=
  let pre := handleExistingOpusFiles w album.flac_files
  let dispatched := album.flac_files.filter (fun f => decide (opusName f ∉ pre.fs))
  let fsC := collectFs w.writes pre.fs dispatched
  let conv := convList w.retOk w.writes pre.fs dispatched
  let fail := failList w.retOk w.writes pre.fs dispatched
  let skipped := album.flac_files.length - conv.length - fail.length
  if conv ≠ [] ∧ fail = [] then
    let srcDel := conv.filter (fun f => decide (f ∈ fsC) && w.unlinkOk f)
    let fs2 := fsC \ srcDel.toFinset
    let mdel := fs2.filter (fun m => matchesSidecarGlob m ∧ w.unlinkOk m)
    { preDeleted := pre.deleted, preSidecarsDeleted := pre.sidecarsDeleted
      dispatched := dispatched, converted := conv, failed := fail
      skipped := skipped, fsPreCleanup := fsC
      cleanupDeleted := srcDel, cleanupSidecarsDeleted := mdel
      fsFinal := fs2 \ mdel, success := true }
  else if fail ≠ [] then
    { preDeleted := pre.deleted, preSidecarsDeleted := pre.sidecarsDeleted
      dispatched := dispatched, converted := conv, failed := fail
      skipped := skipped, fsPreCleanup := fsC
      cleanupDeleted := [], cleanupSidecarsDeleted := ∅
      fsFinal := fsC, success := false }
  else
    { preDeleted := pre.deleted, preSidecarsDeleted := pre.sidecarsDeleted
      dispatched := dispatched, converted := conv, failed := fail
      skipped := skipped, fsPreCleanup := fsC
      cleanupDeleted := [], cleanupSidecarsDeleted := ∅
      fsFinal := fsC, success := true }

/-! ## Concrete sample data used by witnesses and counterexamples -/

/-- A sample scan tree: a root file (to be ignored), and two album
directories listed in non-sorted order. -/
def sampleTree : DirTree :=
  .node ["root.flac"]
    (.cons "b" (.node ["x.FLAC", "y.txt"] .nil)
      (.cons "a" (.node ["z.flac"] .nil) .nil))

/-- The first album of `sampleTree` in sorted order. -/
def sampleAlbumA : Album :=
  { relative_path := "a", flac_files := ["z.flac"], flac_count := 1, total_files := 1 }

/-- The second album of `sampleTree` in sorted order. -/
def sampleAlbumB : Album :=
  { relative_path := "b", flac_files := ["x.FLAC"], flac_count := 1, total_files := 2 }

/-- A five-album catalog for exercising the selection grammar. -/
def catalogFive : List Album :=
  [{ relative_path := "al1", flac_files := ["1.flac"], flac_count := 1, total_files := 1 },
   { relative_path := "al2", flac_files := ["2.flac"], flac_count := 1, total_files := 1 },
   { relative_path := "al3", flac_files := ["3.flac"], flac_count := 1, total_files := 1 },
   { relative_path := "al4", flac_files := ["4.flac"], flac_count := 1, total_files := 1 },
   { relative_path := "al5", flac_files := ["5.flac"], flac_count := 1, total_files := 1 }]

/-- World for the C1 scenario: `a.flac` already has its target (so the
pre-pass deletes it under the default answer), while `b.flac`'s conversion
fails. -/
def worldPreDelFail : World :=
  { fs := {"a.flac", "a.opus", "b.flac"}
    retOk := fun f => f != "b.flac"
    writes := fun f => f != "b.flac"
    unlinkOk := fun _ => true
    preDeleteAnswer := "" }

/-- Album of the C1 scenario. -/
def albumPreDelFail : Album :=
  { relative_path := "x", flac_files := ["a.flac", "b.flac"], flac_count := 2, total_files := 3 }

/-- World for the C3 scenario: the directory holds a stray `._b.txt` that is
no sidecar of any source, and the one source converts successfully. -/
def worldStraySidecar : World :=
  { fs := {"a.flac", "._b.txt"}
    retOk := fun _ => true
    writes := fun _ => true
    unlinkOk := fun _ => true
    preDeleteAnswer := "" }

/-- Album of the C3 scenario. -/
def albumStraySidecar : Album :=
  { relative_path := "x", flac_files := ["a.flac"], flac_count := 1, total_files := 2 }

/-- World for the C8 scenario: the single source already has its target and
the operator declines the pre-pass deletion offer. -/
def worldAllDone : World :=
  { fs := {"a.flac", "a.opus"}
    retOk := fun _ => true
    writes := fun _ => true
    unlinkOk := fun _ => true
    preDeleteAnswer := "n" }

/-- Album of the C8 scenario. -/
def albumAllDone : Album :=
  { relative_path := "x", flac_files := ["a.flac"], flac_count := 1, total_files := 2 }

/-- World for the C9 scenario: the encoder reports success for `a.flac` but
leaves no target file behind. -/
def worldGhostTarget : World :=
  { fs := {"a.flac"}
    retOk := fun _ => true
    writes := fun _ => false
    unlinkOk := fun _ => true
    preDeleteAnswer := "" }

/-! ## Order properties of the sort key -/

theorem charsLe_total : ∀ x y : List Char, charsLe x y = true ∨ charsLe y x = true
  | [], _ => Or.inl rfl
  | _ :: _, [] => Or.inr rfl
  | a :: as, b :: bs => by
    simp only [charsLe]
    by_cases h : a.toNat = b.toNat
    · rw [if_pos h, if_pos h.symm]
      exact charsLe_total as bs
    · rw [if_neg h, if_neg (Ne.symm h)]
      simp only [decide_eq_true_eq]
      omega

theorem charsLe_trans : ∀ x y z : List Char,
    charsLe x y = true → charsLe y z = true → charsLe x z = true
  | [], _, _, _, _ => rfl
  | _ :: _, [], _, h1, _ => by simp [charsLe] at h1
  | _ :: _, _ :: _, [], _, h2 => by simp [charsLe] at h2
  | a :: as, b :: bs, c :: cs, h1, h2 => by
    simp only [charsLe] at h1 h2 ⊢
    by_cases hab : a.toNat = b.toNat
    · rw [if_pos hab] at h1
      by_cases hbc : b.toNat = c.toNat
      · rw [if_pos hbc] at h2
        rw [if_pos (hab.trans hbc)]
        exact charsLe_trans as bs cs h1 h2
      · rw [if_neg hbc] at h2
        simp only [decide_eq_true_eq] at h2
        rw [if_neg (by omega), decide_eq_true_eq]
        omega
    · rw [if_neg hab] at h1
      simp only [decide_eq_true_eq] at h1
      by_cases hbc : b.toNat = c.toNat
      · rw [if_neg (by omega), decide_eq_true_eq]
        omega
      · rw [if_neg hbc] at h2
        simp only [decide_eq_true_eq] at h2
        rw [if_neg (by omega), decide_eq_true_eq]
        omega

/-! ## Claims about the album scanner -/

/-- C5: for every directory tree, every album the scanner emits comes from
exactly one directory entry of the walk: that entry is not the scan root
itself, the album's files are exactly that single entry's immediate files
that match `.flac` case-insensitively, and there is at least one of them.
Files of two different directories are never merged into one album, because
one entry determines the whole file list. -/
theorem scanner_albums_sound (t : DirTree) (al : Album)
    (hal : al ∈ findAlbumsWithFlac t) :
    ∃ e ∈ walkFrom [] t, e.1 ≠ [] ∧
      al.relative_path = ⟨joinPath e.1⟩ ∧
      al.flac_files = e.2.filter (fun f => isFlacName f) ∧
      al.flac_files ≠ [] ∧ ∀ f ∈ al.flac_files, isFlacName f = true := by
  unfold findAlbumsWithFlac at hal
  rw [List.mem_insertionSort] at hal
  obtain ⟨e, he, hsome⟩ := List.mem_filterMap.mp hal
  refine ⟨e, he, ?_⟩
  unfold albumOfEntry at hsome
  split_ifs at hsome with h1 h2
  injection hsome with h
  subst h
  refine ⟨h1, rfl, rfl, h2, ?_⟩
  intro f hf
  exact (List.mem_filter.mp hf).2

/-- C5 witness: the sample tree's first emitted album instantiates the
soundness theorem. -/
theorem scanner_albums_sound_witness :
    sampleAlbumA ∈ findAlbumsWithFlac sampleTree ∧
    (∃ e ∈ walkFrom [] sampleTree, e.1 ≠ [] ∧
      sampleAlbumA.relative_path = ⟨joinPath e.1⟩ ∧
      sampleAlbumA.flac_files = e.2.filter (fun f => isFlacName f) ∧
      sampleAlbumA.flac_files ≠ [] ∧ ∀ f ∈ sampleAlbumA.flac_files, isFlacName f = true) :=
  ⟨by decide, scanner_albums_sound sampleTree sampleAlbumA (by decide)⟩

/-- C6: the scanner's output is sorted by relative path (lexicographically by
code point, the comparison Python's `sorted` applies to `str` keys), and two
runs on an unchanged tree produce the same catalog. -/
theorem scanner_sorted_deterministic (t t' : DirTree) (h : t' = t) :
    List.Sorted albumLe (findAlbumsWithFlac t) ∧
    findAlbumsWithFlac t' = findAlbumsWithFlac t := by
  constructor
  · haveI : IsTotal Album albumLe :=
      ⟨fun a b => charsLe_total a.relative_path.data b.relative_path.data⟩
    haveI : IsTrans Album albumLe :=
      ⟨fun a b c => charsLe_trans a.relative_path.data b.relative_path.data
        c.relative_path.data⟩
    exact List.sorted_insertionSort albumLe _
  · rw [h]

/-- C6 witness: the sample tree's catalog is sorted and reproducible. -/
theorem scanner_sorted_deterministic_witness :
    sampleTree = sampleTree ∧
    (List.Sorted albumLe (findAlbumsWithFlac sampleTree) ∧
      findAlbumsWithFlac sampleTree = findAlbumsWithFlac sampleTree) :=
  ⟨rfl, scanner_sorted_deterministic sampleTree sampleTree rfl⟩

/-! ## Claims about the selection engine -/

theorem getUserSelection_of_ne {α : Type} (albums : List α) (hne : albums ≠ [])
    (inputs : List String) :
    getUserSelection albums inputs = selectionLoop albums inputs := by
  unfold getUserSelection
  rw [if_neg (by simpa using hne)]

theorem parseSel_ne_all {idxs : Finset Int} (s : List Char)
    (hp : parseSel s = some idxs) : s ≠ "all".data := by
  intro he
  rw [he] at hp
  exact Option.noConfusion hp

theorem parseSel_ne_nil {idxs : Finset Int} (s : List Char)
    (hp : parseSel s = some idxs) : s ≠ [] := by
  intro he
  rw [he] at hp
  exact Option.noConfusion hp

theorem selectionLoop_token_valid {α : Type} (albums : List α) (sel c : String)
    (rest : List String) (idxs : Finset Int)
    (hp : parseSel (lowerChars (trimChars sel.data)) = some idxs)
    (hvalid : ∀ i ∈ idxs, 1 ≤ i ∧ i ≤ (albums.length : Int)) :
    selectionLoop albums (sel :: c :: rest) =
      if negAnswer c then selectionLoop albums rest
      else some (chosenOf albums idxs) := by
  have hfil : idxs.filter (fun i => 1 ≤ i ∧ i ≤ (albums.length : Int)) = idxs :=
    Finset.filter_eq_self.mpr hvalid
  simp only [selectionLoop, if_neg (parseSel_ne_all _ hp), if_neg (parseSel_ne_nil _ hp),
    hp, hfil, ne_eq, not_true_eq_false, if_false]

theorem selectionLoop_token_invalid {α : Type} (albums : List α) (sel : String)
    (inputs : List String) (idxs : Finset Int)
    (hp : parseSel (lowerChars (trimChars sel.data)) = some idxs)
    (hbad : ∃ i ∈ idxs, ¬(1 ≤ i ∧ i ≤ (albums.length : Int))) :
    selectionLoop albums (sel :: inputs) = selectionLoop albums inputs := by
  obtain ⟨i, hi, hout⟩ := hbad
  have hss : idxs.filter (fun i => 1 ≤ i ∧ i ≤ (albums.length : Int)) ⊂ idxs := by
    refine ⟨Finset.filter_subset _ _, fun hsup => ?_⟩
    exact hout (Finset.mem_filter.mp (hsup hi)).2
  have hcard : (idxs.filter (fun i => 1 ≤ i ∧ i ≤ (albums.length : Int))).card ≠ idxs.card :=
    Nat.ne_of_lt (Finset.card_lt_card hss)
  simp only [selectionLoop, if_neg (parseSel_ne_all _ hp), if_neg (parseSel_ne_nil _ hp),
    hp, ne_eq, hcard, not_false_eq_true, if_true]

/-- C7: for a parseable selection over a nonempty catalog, if every resolved
index lies in `[1, N]` the engine (after a non-negative confirmation) returns
the albums at the resolved indices in increasing index order, duplicates
collapsed by the index set; while if some resolved index is out of range the
whole input is rejected and the loop re-prompts, accepting no partial
subset. -/
theorem selection_resolves_or_rejects {α : Type} (albums : List α) (hne : albums ≠ [])
    (sel c selBad : String) (rest inputs2 : List String) (idxs idxsBad : Finset Int)
    (hp : parseSel (lowerChars (trimChars sel.data)) = some idxs)
    (hvalid : ∀ i ∈ idxs, 1 ≤ i ∧ i ≤ (albums.length : Int))
    (hc : negAnswer c = false)
    (hpBad : parseSel (lowerChars (trimChars selBad.data)) = some idxsBad)
    (hbad : ∃ i ∈ idxsBad, ¬(1 ≤ i ∧ i ≤ (albums.length : Int))) :
    getUserSelection albums (sel :: c :: rest) = some (chosenOf albums idxs) ∧
    getUserSelection albums (selBad :: inputs2) = getUserSelection albums inputs2 := by
  constructor
  · rw [getUserSelection_of_ne albums hne, selectionLoop_token_valid albums sel c rest idxs hp hvalid,
      if_neg (by simp [hc])]
  · rw [getUserSelection_of_ne albums hne, getUserSelection_of_ne albums hne,
      selectionLoop_token_invalid albums selBad inputs2 idxsBad hpBad hbad]

/-- C7 witness: on the five-album catalog, `2-4,1` (confirmed by the default
empty answer) returns albums 1-4 in index order with the duplicate-free index
set `{1, 2, 3, 4}`, and `6` is rejected outright. -/
theorem selection_resolves_or_rejects_witness :
    catalogFive ≠ [] ∧
    parseSel (lowerChars (trimChars "2-4,1".data)) = some (Finset.Icc (2 : Int) 4 ∪ {1} ∪ ∅) ∧
    (∀ i ∈ (Finset.Icc (2 : Int) 4 ∪ {1} ∪ ∅), 1 ≤ i ∧ i ≤ (catalogFive.length : Int)) ∧
    negAnswer "" = false ∧
    parseSel (lowerChars (trimChars "6".data)) = some ({6} ∪ ∅ : Finset Int) ∧
    (∃ i ∈ ({6} ∪ ∅ : Finset Int), ¬(1 ≤ i ∧ i ≤ (catalogFive.length : Int))) ∧
    (getUserSelection catalogFive ["2-4,1", ""] =
        some (chosenOf catalogFive (Finset.Icc (2 : Int) 4 ∪ {1} ∪ ∅)) ∧
      getUserSelection catalogFive ["6"] = getUserSelection catalogFive []) ∧
    chosenOf catalogFive (Finset.Icc (2 : Int) 4 ∪ {1} ∪ ∅) = catalogFive.take 4 :=
  ⟨by decide, rfl, by decide, by decide, rfl, by decide,
    selection_resolves_or_rejects catalogFive (by decide) "2-4,1" "" "6" [] []
      (Finset.Icc (2 : Int) 4 ∪ {1} ∪ ∅) ({6} ∪ ∅) rfl (by decide) (by decide) rfl (by decide),
    by decide⟩

/-- C2 counterexample: the reversed range `2-1` is not rejected as malformed.
`int('2')` and `int('1')` both succeed and `range(2, 1 + 1)` is empty, so the
token silently contributes no indices; the whole input passes validation as
the empty selection and, with the default confirmation, `get_user_selection`
returns the empty subset instead of re-prompting. -/
theorem reversed_range_accepted_cex :
    parseSel "2-1".data = some ∅ ∧
    getUserSelection catalogFive ["2-1", ""] = some [] :=
  ⟨rfl, by decide⟩

/-- C2 amended: a range token whose two sides parse as integers `i > j`
raises no `ParseError` and resolves to the empty index set — the reversed
range is silently accepted as selecting nothing, not rejected as
malformed. -/
theorem reversed_range_parses_empty (part a b : List Char) (i j : Int)
    (hdash : (trimChars part).contains '-' = true)
    (hsplit : splitOnChar '-' (trimChars part) = [a, b])
    (ha : pyInt a = some i) (hb : pyInt b = some j) (hij : j < i) :
    parseToken part = some ∅ := by
  simp only [parseToken, hdash, if_true, hsplit, ha, hb]
  exact congrArg some (Finset.Icc_eq_empty (by omega))

/-- C2 amended witness: `2-1` parses to the empty index set. -/
theorem reversed_range_parses_empty_witness :
    (trimChars "2-1".data).contains '-' = true ∧
    splitOnChar '-' (trimChars "2-1".data) = ["2".data, "1".data] ∧
    pyInt "2".data = some 2 ∧ pyInt "1".data = some 1 ∧ (1 : Int) < 2 ∧
    parseToken "2-1".data = some ∅ :=
  ⟨by decide, by decide, by decide, by decide, by decide,
    reversed_range_parses_empty "2-1".data "2".data "1".data 2 1
      (by decide) (by decide) (by decide) (by decide) (by decide)⟩

/-- C4 counterexample: the keyword `all` returns the whole catalog at once,
with no confirmation prompt — the next queued answer is the negative `n`,
which the claim says must discard the subset and restart selection, yet the
subset is final immediately. -/
theorem all_skips_confirmation_cex :
    negAnswer "n" = true ∧
    getUserSelection catalogFive ["all", "n"] = some catalogFive := by
  exact ⟨by decide, by decide⟩

/-- C4 amended: subsets resolved from index/range tokens do require operator
confirmation — any non-negative answer (the empty default included) finalises
the subset, and a negative answer discards it and re-prompts — but the
literal keyword `all` (case-insensitive) short-circuits and returns the whole
catalog immediately, without any confirmation. -/
theorem confirmation_except_all {α : Type} (albums : List α) (hne : albums ≠ [])
    (lineAll sel cNeg cPos : String) (rest : List String) (idxs : Finset Int)
    (hall : lowerChars (trimChars lineAll.data) = "all".data)
    (hp : parseSel (lowerChars (trimChars sel.data)) = some idxs)
    (hvalid : ∀ i ∈ idxs, 1 ≤ i ∧ i ≤ (albums.length : Int))
    (hneg : negAnswer cNeg = true) (hpos : negAnswer cPos = false) :
    getUserSelection albums (lineAll :: rest) = some albums ∧
    getUserSelection albums (sel :: cNeg :: rest) = getUserSelection albums rest ∧
    getUserSelection albums (sel :: cPos :: rest) = some (chosenOf albums idxs) := by
  refine ⟨?_, ?_, ?_⟩
  · rw [getUserSelection_of_ne albums hne]
    simp only [selectionLoop, hall, if_true]
  · rw [getUserSelection_of_ne albums hne, getUserSelection_of_ne albums hne,
      selectionLoop_token_valid albums sel cNeg rest idxs hp hvalid, if_pos (by simp [hneg])]
  · rw [getUserSelection_of_ne albums hne,
      selectionLoop_token_valid albums sel cPos rest idxs hp hvalid, if_neg (by simp [hpos])]

/-- C4 amended witness: ` ALL ` returns the five-album catalog with no
confirmation consumed; `1` followed by `No` restarts; `1` followed by the
empty default returns album 1. -/
theorem confirmation_except_all_witness :
    catalogFive ≠ [] ∧
    lowerChars (trimChars " ALL ".data) = "all".data ∧
    parseSel (lowerChars (trimChars "1".data)) = some ({1} ∪ ∅ : Finset Int) ∧
    (∀ i ∈ ({1} ∪ ∅ : Finset Int), 1 ≤ i ∧ i ≤ (catalogFive.length : Int)) ∧
    negAnswer "No" = true ∧ negAnswer "" = false ∧
    (getUserSelection catalogFive [" ALL "] = some catalogFive ∧
      getUserSelection catalogFive ["1", "No"] = getUserSelection catalogFive [] ∧
      getUserSelection catalogFive ["1", ""] =
        some (chosenOf catalogFive ({1} ∪ ∅ : Finset Int))) :=
  ⟨by decide, by decide, rfl, by decide, by decide, by decide,
    confirmation_except_all catalogFive (by decide) " ALL " "1" "No" "" []
      ({1} ∪ ∅) (by decide) rfl (by decide) (by decide) (by decide)⟩

/-! ## Claims about the conversion orchestrator -/

theorem convertAlbum_run (w : World) (a : Album) :
    (convertAlbum w a).dispatched =
      a.flac_files.filter
        (fun f => decide (opusName f ∉ (handleExistingOpusFiles w a.flac_files).fs)) ∧
    (convertAlbum w a).converted =
      convList w.retOk w.writes (handleExistingOpusFiles w a.flac_files).fs
        ((convertAlbum w a).dispatched) ∧
    (convertAlbum w a).failed =
      failList w.retOk w.writes (handleExistingOpusFiles w a.flac_files).fs
        ((convertAlbum w a).dispatched) ∧
    (convertAlbum w a).skipped =
      a.flac_files.length - (convertAlbum w a).converted.length -
        (convertAlbum w a).failed.length := by
  simp only [convertAlbum]
  split_ifs <;> exact ⟨rfl, rfl, rfl, rfl⟩

/-- C1 amended: whenever at least one conversion attempt results in Failed,
the success-path cleanup (lines 317-336) does not run: no source file is
deleted by it and the album is marked failed (`convert_album` returns
`False`).  Source files whose targets pre-existed may nevertheless have been
deleted earlier by the operator-confirmed pre-pass
(`handle_existing_opus_files`), which runs before any conversion attempt. -/
theorem convert_album_failure_no_cleanup (w : World) (a : Album)
    (hfail : (convertAlbum w a).failed ≠ []) :
    (convertAlbum w a).cleanupDeleted = [] ∧ (convertAlbum w a).success = false := by
  simp only [convertAlbum] at hfail ⊢
  split_ifs at hfail ⊢ with h1 h2
  · exact absurd h1.2 hfail
  · exact ⟨rfl, rfl⟩
  · exact absurd hfail h2

/-- C1 counterexample: `a.flac` already has a target, so the pre-pass deletes
it under the default answer, and then its sibling `b.flac` fails to convert:
a Failed outcome is present, the album is marked failed, and yet one source
file of the album was deleted in the run — the claim's "zero source files
deleted, all sources retained" is false of `convert_album` as a whole. -/
theorem failed_album_source_deleted_cex :
    (convertAlbum worldPreDelFail albumPreDelFail).failed ≠ [] ∧
    (convertAlbum worldPreDelFail albumPreDelFail).preDeleted = ["a.flac"] ∧
    "a.flac" ∈ worldPreDelFail.fs ∧
    "a.flac" ∉ (convertAlbum worldPreDelFail albumPreDelFail).fsFinal ∧
    (convertAlbum worldPreDelFail albumPreDelFail).success = false := by decide

/-- C1 witness: the same scenario instantiates the amended theorem — the
cleanup path deleted nothing and the album is marked failed. -/
theorem convert_album_failure_no_cleanup_witness :
    (convertAlbum worldPreDelFail albumPreDelFail).failed ≠ [] ∧
    ((convertAlbum worldPreDelFail albumPreDelFail).cleanupDeleted = [] ∧
      (convertAlbum worldPreDelFail albumPreDelFail).success = false) :=
  ⟨by decide, convert_album_failure_no_cleanup worldPreDelFail albumPreDelFail (by decide)⟩

/-- C3 amended: on the eligible-for-deletion path the cleanup step is a glob
over the whole album directory (`album_path.glob("._*")`, line 328): every
file whose name starts with `._` and that is still present after the source
deletions is removed (unlink permitting) — whether or not it is the sidecar
of a source deleted in this run.  Sidecars of Skipped sources and unrelated
`._*` files are deleted too, contrary to the claim. -/
theorem glob_cleanup_removes_all_sidecars (w : World) (a : Album) (m : String)
    (hc : (convertAlbum w a).converted ≠ []) (hf : (convertAlbum w a).failed = [])
    (hm : m ∈ (convertAlbum w a).fsPreCleanup)
    (hglob : matchesSidecarGlob m = true)
    (hok : w.unlinkOk m = true)
    (hnotdel : m ∉ (convertAlbum w a).cleanupDeleted) :
    m ∈ (convertAlbum w a).cleanupSidecarsDeleted ∧
    m ∉ (convertAlbum w a).fsFinal := by
  simp only [convertAlbum] at hc hf hm hnotdel ⊢
  split_ifs at hc hf hm hnotdel ⊢ with h1 h2
  · refine ⟨Finset.mem_filter.mpr ⟨Finset.mem_sdiff.mpr ⟨hm, ?_⟩, hglob, hok⟩, ?_⟩
    · intro hcon
      exact hnotdel (List.mem_toFinset.mp hcon)
    · intro hfin
      exact (Finset.mem_sdiff.mp hfin).2
        (Finset.mem_filter.mpr
          ⟨Finset.mem_sdiff.mpr ⟨hm, fun hcon => hnotdel (List.mem_toFinset.mp hcon)⟩,
            hglob, hok⟩)
  · exact absurd hf h2
  · exact absurd ⟨hc, hf⟩ h1

/-- C3 counterexample: with a stray `._b.txt` in the album directory (the
sidecar of no deleted source — only `a.flac` is deleted this run, and its
sidecar would be `._a.flac`), the success-path cleanup deletes `._b.txt`
anyway. -/
theorem stray_sidecar_deleted_cex :
    (convertAlbum worldStraySidecar albumStraySidecar).cleanupDeleted = ["a.flac"] ∧
    sidecarName "a.flac" ≠ "._b.txt" ∧
    "._b.txt" ∈ worldStraySidecar.fs ∧
    "._b.txt" ∈ (convertAlbum worldStraySidecar albumStraySidecar).cleanupSidecarsDeleted ∧
    "._b.txt" ∉ (convertAlbum worldStraySidecar albumStraySidecar).fsFinal := by decide

/-- C3 witness: the stray-sidecar scenario instantiates the amended
theorem at `m = "._b.txt"`. -/
theorem glob_cleanup_removes_all_sidecars_witness :
    ((convertAlbum worldStraySidecar albumStraySidecar).converted ≠ [] ∧
      (convertAlbum worldStraySidecar albumStraySidecar).failed = [] ∧
      "._b.txt" ∈ (convertAlbum worldStraySidecar albumStraySidecar).fsPreCleanup ∧
      matchesSidecarGlob "._b.txt" = true ∧
      worldStraySidecar.unlinkOk "._b.txt" = true ∧
      "._b.txt" ∉ (convertAlbum worldStraySidecar albumStraySidecar).cleanupDeleted) ∧
    ("._b.txt" ∈ (convertAlbum worldStraySidecar albumStraySidecar).cleanupSidecarsDeleted ∧
      "._b.txt" ∉ (convertAlbum worldStraySidecar albumStraySidecar).fsFinal) :=
  ⟨⟨by decide, by decide, by decide, by decide, by decide, by decide⟩,
    glob_cleanup_removes_all_sidecars worldStraySidecar albumStraySidecar "._b.txt"
      (by decide) (by decide) (by decide) (by decide) (by decide) (by decide)⟩

theorem handleExisting_mem_fs (w : World) (l : List String) (m : String)
    (hm : m ∈ w.fs) (hno : ∀ g ∈ l, m ≠ g ∧ m ≠ sidecarName g) :
    m ∈ (handleExistingOpusFiles w l).fs := by
  simp only [handleExistingOpusFiles]
  split_ifs with h1 h2
  · exact hm
  · exact hm
  · refine Finset.mem_sdiff.mpr ⟨Finset.mem_sdiff.mpr ⟨hm, ?_⟩, ?_⟩
    · intro hcon
      have hl : m ∈ l :=
        List.mem_of_mem_filter (List.mem_of_mem_filter (List.mem_toFinset.mp hcon))
      exact (hno m hl).1 rfl
    · intro hcon
      obtain ⟨f, hf, heq⟩ := List.mem_filterMap.mp (List.mem_toFinset.mp hcon)
      have hfl : f ∈ l := List.mem_of_mem_filter (List.mem_of_mem_filter hf)
      split at heq
      · injection heq with he
        exact (hno f hfl).2 he.symm
      · exact Option.noConfusion heq

theorem convertAlbum_noop_core (w : World) (a : Album)
    (hall : ∀ f ∈ a.flac_files, opusName f ∈ (handleExistingOpusFiles w a.flac_files).fs) :
    (convertAlbum w a).dispatched = [] ∧ (convertAlbum w a).converted = [] ∧
    (convertAlbum w a).failed = [] ∧ (convertAlbum w a).success = true ∧
    (convertAlbum w a).fsFinal = (handleExistingOpusFiles w a.flac_files).fs := by
  have hd : a.flac_files.filter
      (fun f => decide (opusName f ∉ (handleExistingOpusFiles w a.flac_files).fs)) = [] := by
    rw [List.filter_eq_nil_iff]
    intro f hf
    simpa using hall f hf
  simp only [convertAlbum, hd, collectFs, convList, failList]
  simp

/-- C8: if every source file of the album already has its sibling target on
disk (and targets collide with no source or sidecar name, as is the case for
`.flac` sources and `.opus` targets), processing the album dispatches zero
encoder invocations, records nothing converted and nothing failed, and
returns the no-op success; running `convert_album` again on the resulting
directory state again dispatches zero encoder invocations. -/
theorem convert_album_noop_when_targets_exist (w : World) (a : Album)
    (h1 : ∀ f ∈ a.flac_files, opusName f ∈ w.fs)
    (h2 : ∀ f ∈ a.flac_files, ∀ g ∈ a.flac_files,
      opusName f ≠ g ∧ opusName f ≠ sidecarName g) :
    (convertAlbum w a).dispatched = [] ∧ (convertAlbum w a).converted = [] ∧
    (convertAlbum w a).failed = [] ∧ (convertAlbum w a).success = true ∧
    (convertAlbum { w with fs := (convertAlbum w a).fsFinal } a).dispatched = [] := by
  have hall : ∀ f ∈ a.flac_files, opusName f ∈ (handleExistingOpusFiles w a.flac_files).fs :=
    fun f hf => handleExisting_mem_fs w a.flac_files (opusName f) (h1 f hf) (h2 f hf)
  obtain ⟨hd, hc, hfl, hs, hfin⟩ := convertAlbum_noop_core w a hall
  refine ⟨hd, hc, hfl, hs, ?_⟩
  have h1b : ∀ f ∈ a.flac_files,
      opusName f ∈ ({ w with fs := (convertAlbum w a).fsFinal } : World).fs := by
    intro f hf
    show opusName f ∈ (convertAlbum w a).fsFinal
    rw [hfin]
    exact hall f hf
  have hall2 : ∀ f ∈ a.flac_files, opusName f ∈
      (handleExistingOpusFiles { w with fs := (convertAlbum w a).fsFinal } a.flac_files).fs :=
    fun f hf => handleExisting_mem_fs _ a.flac_files (opusName f) (h1b f hf) (h2 f hf)
  exact (convertAlbum_noop_core _ a hall2).1

/-- C8 witness: a one-track album whose target exists and whose operator
declines the pre-pass deletion is a complete no-op, twice over. -/
theorem convert_album_noop_when_targets_exist_witness :
    (∀ f ∈ albumAllDone.flac_files, opusName f ∈ worldAllDone.fs) ∧
    (∀ f ∈ albumAllDone.flac_files, ∀ g ∈ albumAllDone.flac_files,
      opusName f ≠ g ∧ opusName f ≠ sidecarName g) ∧
    ((convertAlbum worldAllDone albumAllDone).dispatched = [] ∧
      (convertAlbum worldAllDone albumAllDone).converted = [] ∧
      (convertAlbum worldAllDone albumAllDone).failed = [] ∧
      (convertAlbum worldAllDone albumAllDone).success = true ∧
      (convertAlbum { worldAllDone with
        fs := (convertAlbum worldAllDone albumAllDone).fsFinal } albumAllDone).dispatched = []) :=
  ⟨by decide, by decide,
    convert_album_noop_when_targets_exist worldAllDone albumAllDone (by decide) (by decide)⟩

theorem convList_subset (r w : String → Bool) (fs : Finset String) (l : List String)
    (f : String) (h : f ∈ convList r w fs l) : f ∈ l := by
  induction l generalizing fs with
  | nil =>
    simp only [convList] at h
    exact absurd h (List.not_mem_nil f)
  | cons g rest ih =>
    simp only [convList] at h
    set fs1 := if w g = true then insert (opusName g) fs else fs with hfs1
    by_cases hc : (r g && decide (opusName g ∈ fs1)) = true
    · rw [if_pos hc] at h
      rcases List.mem_cons.mp h with rfl | h2
      · exact List.mem_cons_self _ _
      · exact List.mem_cons_of_mem _ (ih _ h2)
    · rw [if_neg hc] at h
      exact List.mem_cons_of_mem _ (ih _ h)

theorem collect_cover (r w : String → Bool) : ∀ (fs : Finset String) (l : List String)
    (f : String), f ∈ l → f ∈ convList r w fs l ∨ f ∈ failList r w fs l := by
  intro fs l
  induction l generalizing fs with
  | nil => intro f hf; cases hf
  | cons g rest ih =>
    intro f hf
    simp only [convList, failList]
    set fs1 := if w g = true then insert (opusName g) fs else fs with hfs1
    by_cases hc : (r g && decide (opusName g ∈ fs1)) = true
    · rw [if_pos hc, if_pos hc]
      rcases List.mem_cons.mp hf with rfl | h2
      · exact Or.inl (List.mem_cons_self _ _)
      · rcases ih fs1 f h2 with h | h
        · exact Or.inl (List.mem_cons_of_mem _ h)
        · exact Or.inr h
    · rw [if_neg hc, if_neg hc]
      rcases List.mem_cons.mp hf with rfl | h2
      · exact Or.inr (List.mem_cons_self _ _)
      · rcases ih fs1 f h2 with h | h
        · exact Or.inl h
        · exact Or.inr (List.mem_cons_of_mem _ h)

theorem convList_mem_iff (r w : String → Bool) : ∀ (fs : Finset String) (l : List String),
    (∀ g ∈ l, opusName g ∉ fs) →
    l.Pairwise (fun f g => opusName f ≠ opusName g) →
    ∀ f ∈ l, (f ∈ convList r w fs l ↔ (r f = true ∧ w f = true)) := by
  intro fs l
  induction l generalizing fs with
  | nil => intro _ _ f hf; cases hf
  | cons g rest ih =>
    intro hfresh hinj f hf
    rw [List.pairwise_cons] at hinj
    obtain ⟨hhead, htail⟩ := hinj
    have hgrest : g ∉ rest := fun hg => (hhead g hg) rfl
    simp only [convList]
    set fs1 := if w g = true then insert (opusName g) fs else fs with hfs1
    have hfresh1 : ∀ h ∈ rest, opusName h ∉ fs1 := by
      intro h hh
      rw [hfs1]
      split_ifs with hwg
      · rw [Finset.mem_insert]
        push_neg
        exact ⟨fun he => (hhead h hh) he.symm, hfresh h (List.mem_cons_of_mem _ hh)⟩
      · exact hfresh h (List.mem_cons_of_mem _ hh)
    have hcond : (r g && decide (opusName g ∈ fs1)) = (r g && w g) := by
      rw [hfs1]
      cases hwg : w g with
      | true => simp
      | false => simp [hfresh g (List.mem_cons_self g rest)]
    rw [hcond]
    rcases List.mem_cons.mp hf with rfl | h2
    · constructor
      · intro hmem
        by_cases hc : (r f && w f) = true
        · rw [Bool.and_eq_true] at hc
          exact hc
        · rw [if_neg hc] at hmem
          exact absurd (convList_subset r w fs1 rest f hmem) hgrest
      · intro hrw
        rw [if_pos (by rw [Bool.and_eq_true]; exact hrw)]
        exact List.mem_cons_self _ _
    · have hne : f ≠ g := fun he => hgrest (he ▸ h2)
      have hiff := ih fs1 hfresh1 htail f h2
      constructor
      · intro hmem
        by_cases hc : (r g && w g) = true
        · rw [if_pos hc] at hmem
          rcases List.mem_cons.mp hmem with he | h3
          · exact absurd he hne
          · exact hiff.mp h3
        · rw [if_neg hc] at hmem
          exact hiff.mp hmem
      · intro hrw
        have h3 := hiff.mpr hrw
        by_cases hc : (r g && w g) = true
        · rw [if_pos hc]
          exact List.mem_cons_of_mem _ h3
        · rw [if_neg hc]
          exact h3

/-- C9: a dispatched file is recorded Converted exactly when the encoder
gateway reported success and its target file is actually present on disk
afterwards; in particular a gateway success whose target is missing is
recorded Failed — the per-file outcome is stricter than the subprocess exit
status alone.  (The pairwise hypothesis — distinct dispatched files have
distinct targets — holds for any real directory listing, where file names are
distinct and share no basename.) -/
theorem converted_iff_target_exists (w : World) (a : Album)
    (hinj : a.flac_files.Pairwise (fun f g => opusName f ≠ opusName g))
    (f : String) (hf : f ∈ (convertAlbum w a).dispatched) :
    (f ∈ (convertAlbum w a).converted ↔ (w.retOk f = true ∧ w.writes f = true)) ∧
    ((w.retOk f = true ∧ w.writes f = false) → f ∈ (convertAlbum w a).failed) := by
  obtain ⟨hdisp, hconv, hfail, -⟩ := convertAlbum_run w a
  rw [hconv, hfail]
  rw [hdisp] at hf ⊢
  have hfresh : ∀ g ∈ a.flac_files.filter
      (fun f => decide (opusName f ∉ (handleExistingOpusFiles w a.flac_files).fs)),
      opusName g ∉ (handleExistingOpusFiles w a.flac_files).fs := by
    intro g hg
    simpa using (List.mem_filter.mp hg).2
  have hinj2 : (a.flac_files.filter
      (fun f => decide (opusName f ∉ (handleExistingOpusFiles w a.flac_files).fs))).Pairwise
      (fun f g => opusName f ≠ opusName g) :=
    hinj.sublist (List.filter_sublist _)
  constructor
  · exact convList_mem_iff w.retOk w.writes _ _ hfresh hinj2 f hf
  · rintro ⟨hr, hw⟩
    rcases collect_cover w.retOk w.writes _ _ f hf with hcv | hfl
    · have h3 := (convList_mem_iff w.retOk w.writes _ _ hfresh hinj2 f hf).mp hcv
      rw [hw] at h3
      exact absurd h3.2 (by simp)
    · exact hfl

/-- C9 witness: the encoder claims success for `a.flac` but writes no target:
the file is not Converted and lands in the Failed list. -/
theorem converted_iff_target_exists_witness :
    albumStraySidecar.flac_files.Pairwise (fun f g => opusName f ≠ opusName g) ∧
    "a.flac" ∈ (convertAlbum worldGhostTarget albumStraySidecar).dispatched ∧
    (("a.flac" ∈ (convertAlbum worldGhostTarget albumStraySidecar).converted ↔
        (worldGhostTarget.retOk "a.flac" = true ∧ worldGhostTarget.writes "a.flac" = true)) ∧
      ((worldGhostTarget.retOk "a.flac" = true ∧ worldGhostTarget.writes "a.flac" = false) →
        "a.flac" ∈ (convertAlbum worldGhostTarget albumStraySidecar).failed)) :=
  ⟨by decide, by decide,
    converted_iff_target_exists worldGhostTarget albumStraySidecar (by decide)
      "a.flac" (by decide)⟩

theorem collect_lengths (r w : String → Bool) : ∀ (fs : Finset String) (l : List String),
    (convList r w fs l).length + (failList r w fs l).length = l.length := by
  intro fs l
  induction l generalizing fs with
  | nil => rfl
  | cons g rest ih =>
    simp only [convList, failList]
    set fs1 := if w g = true then insert (opusName g) fs else fs with hfs1
    have h := ih fs1
    by_cases hc : (r g && decide (opusName g ∈ fs1)) = true
    · rw [if_pos hc, if_pos hc]
      simp only [List.length_cons]
      omega
    · rw [if_neg hc, if_neg hc]
      simp only [List.length_cons]
      omega

theorem filter_mem_split (s : Finset String) (key : String → String) :
    ∀ l : List String,
      (l.filter (fun f => decide (key f ∉ s))).length +
        (l.filter (fun f => decide (key f ∈ s))).length = l.length := by
  intro l
  induction l with
  | nil => rfl
  | cons g rest ih =>
    by_cases h : key g ∈ s
    · simp [List.filter_cons, h] at ih ⊢
      omega
    · simp [List.filter_cons, h] at ih ⊢
      omega

/-- C10: the three per-album counts partition the album's source files —
`converted + failed + skipped` equals the source-file count, with `skipped`
(computed in the source by subtraction, line 312) equal to the number of
source files whose target already existed at dispatch time; in particular the
subtraction never goes negative. -/
theorem counts_partition (w : World) (a : Album) :
    (convertAlbum w a).converted.length + (convertAlbum w a).failed.length +
      (convertAlbum w a).skipped = a.flac_files.length ∧
    (convertAlbum w a).skipped =
      (a.flac_files.filter
        (fun f => decide (opusName f ∈ (handleExistingOpusFiles w a.flac_files).fs))).length := by
  obtain ⟨hdisp, hconv, hfail, hskip⟩ := convertAlbum_run w a
  have hlen : (convertAlbum w a).converted.length + (convertAlbum w a).failed.length
      = (convertAlbum w a).dispatched.length := by
    rw [hconv, hfail]
    exact collect_lengths w.retOk w.writes _ _
  have hsplit := filter_mem_split (handleExistingOpusFiles w a.flac_files).fs
    opusName a.flac_files
  rw [hdisp] at hlen
  constructor
  · rw [hskip]
    omega
  · rw [hskip]
    omega

end FlacOpus

